import Mathlib

/-!
Verification of the B0 field-homogeneity pipeline of `app.py`
(`read_dicom_phase`, `make_roi_mask`, `compute_b0_ppm` and the B0 tab
evaluator) against its natural-language specification.

Modelling conventions:
* an image (`numpy` 2-D float array) is a rectangular `List (List ℚ)`;
* a boolean mask is a `List (List Bool)`;
* numpy / pydicom operations that raise on bad input (`np.stack` on an
  empty or ragged list, indexing past the end of a stack, `np.max` on an
  empty selection) are modelled with `Option`, `none` standing for the
  raised exception;
* `skimage.filters.threshold_otsu` is an external library call; it is
  modelled as an oracle parameter `otsu : Image → ℚ` threaded through the
  pipeline, so every statement quantifies over (or fixes) the threshold
  it returns;
* `skimage.morphology.erosion` is modelled with its documented border
  behaviour: pixels outside the image are taken as the maximal value
  (`true`), so regions touching the border are not eroded from outside;
* `skimage.measure.label` uses full (8-) connectivity for 2-D input,
  and `regionprops` lists components of positive labels in raster order
  of their first pixel; Python's `max(props, key=area)` keeps the first
  maximum.
-/

namespace MriQc

/-- A 2-D float image, row major. -/
abbrev Image := List (List ℚ)

/-- A 2-D boolean mask, row major. -/
abbrev Mask := List (List Bool)

/-- Number of columns of an image (length of the first row). -/
def nCols (img : Image) : ℕ := (img.headD []).length

/-- Number of columns of a mask. -/
def mCols (m : Mask) : ℕ := (m.headD []).length

/-- Pixel access with numpy-style row/column indices; out of range reads 0
(only used at in-range indices by the pipeline). -/
def getPix (img : Image) (i j : ℕ) : ℚ := (img.getD i []).getD j 0

/-- Mask access; out of range reads `false`. -/
def getM (m : Mask) (i j : ℕ) : Bool := (m.getD i []).getD j false

/-- An image is rectangular. -/
def isRect (img : Image) : Bool := img.all (fun row => row.length == nCols img)

/-- Two images have the same 2-D shape. -/
def sameShape (a b : Image) : Bool :=
  (a.length == b.length) && (nCols a == nCols b)

/-- Pointwise difference `a - b` of two images, as in
`phase_diff = te2_stack[idx]-te1_stack[idx]` (app.py line 137); numpy raises
on incompatible shapes, modelled as `none` (broadcasting of unequal but
compatible shapes does not occur in the pipeline and is not modelled). -/
def imgSub (a b : Image) : Option Image :=
  if sameShape a b then some (List.zipWith (List.zipWith (fun x y => x - y)) a b)
  else none

/-- Pointwise scaling `c * img`, as in `ppm_slice = phase_diff*1e3`
(app.py line 139). -/
def scaleImg (c : ℚ) (img : Image) : Image :=
  img.map (List.map (fun v => c * v))

/-- Pointwise absolute value of an image (spec-side magnitude conversion). -/
def imgAbs (img : Image) : Image := img.map (List.map (fun v => |v|))

/-- Boolean-mask selection `img[mask]`: the values at mask-true positions in
raster order, as numpy boolean indexing returns them. -/
def maskedValues (img : Image) (m : Mask) : List ℚ :=
  ((List.range img.length).map (fun i =>
    (List.range (nCols img)).filterMap (fun j =>
      if getM m i j then some (getPix img i j) else none))).flatten

/-- `np.max` over a list of values: raises (`none`) on an empty selection. -/
def npMax : List ℚ → Option ℚ
  | [] => none
  | x :: xs => some (xs.foldl max x)

/-- The per-slice metric of app.py line 140, `ppm_max = np.max(ppm_slice[mask])`:
the maximum of the signed masked values, raising on an empty mask. -/
def ppmMax (ppm : Image) (m : Mask) : Option ℚ := npMax (maskedValues ppm m)

/-- An uploaded DICOM file: a `name` attribute and the decoded
`pixel_array` (already cast to float). Python compares file names
lexicographically over their Unicode code points, so the name is modelled
as its sequence of code points. -/
structure DFile where
  name : List ℕ
  data : Image
deriving DecidableEq

/-- File ordering used by `read_dicom_phase`: ascending by the `name`
attribute. -/
def nameLE (a b : DFile) : Prop := a.name ≤ b.name

instance : DecidableRel nameLE := fun a b =>
  inferInstanceAs (Decidable (a.name ≤ b.name))

instance : IsTotal DFile nameLE := ⟨fun a b => le_total a.name b.name⟩

instance : IsTrans DFile nameLE := ⟨fun _ _ _ h h' => le_trans h h'⟩

/-- Strict version of the name order, used to compare sorted lists. -/
def nameLT (a b : DFile) : Prop := a.name < b.name

instance : IsAntisymm DFile nameLT :=
  ⟨fun _ _ h h' => absurd h' (lt_asymm h)⟩

/-- `sorted(file_list, key=lambda x: x.name)` — Python's stable sort by name;
insertion sort inserting strictly-smaller elements earlier is stable the same
way. -/
def sortFiles (files : List DFile) : List DFile :=
  List.insertionSort nameLE files

/-- `np.stack` precondition: at least one slice, all rectangular with equal
shapes (it raises otherwise). -/
def stackOk : List Image → Bool
  | [] => false
  | i :: rest => isRect i && rest.all (fun j => isRect j && sameShape i j)

/-- `read_dicom_phase` (app.py lines 109–115): sort the files ascending by
name, read each pixel array, and stack them into a volume. -/
def readDicomPhase (files : List DFile) : Option (List Image) :=
  let imgs := (sortFiles files).map DFile.data
  if stackOk imgs then some imgs else none

/-! ### Segmentation (`make_roi_mask`, app.py lines 117–129) -/

/-- `binary = phase_slice>thresh` (app.py line 120). -/
def binarize (t : ℚ) (img : Image) : Mask :=
  img.map (List.map (fun v => decide (t < v)))

/-- The true cells of a mask, in raster order. -/
def trueCells (m : Mask) : List (ℕ × ℕ) :=
  ((List.range m.length).map (fun i =>
    (List.range (mCols m)).filterMap (fun j =>
      if getM m i j then some (i, j) else none))).flatten

/-- 8-adjacency of grid cells (the default full connectivity of
`skimage.measure.label` for 2-D input). -/
def adj8 (p q : ℕ × ℕ) : Bool :=
  (p != q) && (((p.1 : ℤ) - q.1).natAbs ≤ 1) && (((p.2 : ℤ) - q.2).natAbs ≤ 1)

/-- One expansion step of a region inside the available cells. -/
def grow (cells : List (ℕ × ℕ)) (s : List (ℕ × ℕ)) : List (ℕ × ℕ) :=
  s ++ cells.filter (fun c => !(s.contains c) && s.any (fun q => adj8 c q))

/-- The connected component of a true cell: expand within the true cells as
many times as there are true cells. -/
def component (m : Mask) (p : ℕ × ℕ) : List (ℕ × ℕ) :=
  (grow (trueCells m))^[(trueCells m).length] [p]

/-- First representative (in raster order) of each connected component. -/
def componentReps (m : Mask) : List (ℕ × ℕ) :=
  (trueCells m).foldl
    (fun reps c =>
      if reps.any (fun r => (component m r).contains c) then reps
      else reps ++ [c]) []

/-- The connected components of the foreground, in label order
(raster order of first pixel), as `regionprops` lists them. -/
def components (m : Mask) : List (List (ℕ × ℕ)) :=
  (componentReps m).map (component m)

/-- `max(props, key=lambda x: x.area)`: the first component of maximal area;
`none` when there are no components. -/
def argmaxFirst : List (List (ℕ × ℕ)) → Option (List (ℕ × ℕ))
  | [] => none
  | c :: cs => some (cs.foldl (fun best d => if best.length < d.length then d else best) c)

/-- `np.ones_like(phase_slice, dtype=bool)`: an all-true mask of the given
shape. -/
def allTrueMask (rows cols : ℕ) : Mask :=
  (List.range rows).map (fun _ => (List.range cols).map (fun _ => true))

/-- `labeled==largest.label`: the mask of one component on the given shape. -/
def maskFromCells (rows cols : ℕ) (comp : List (ℕ × ℕ)) : Mask :=
  (List.range rows).map (fun i => (List.range cols).map (fun j => comp.contains (i, j)))

/-- `skimage.morphology.disk(r)`: offsets `(x, y)` with `x² + y² ≤ r²`. -/
def diskOffsets (r : ℕ) : List (ℤ × ℤ) :=
  ((List.range (2 * r + 1)).map (fun (a : ℕ) =>
    (List.range (2 * r + 1)).filterMap (fun (b : ℕ) =>
      let x : ℤ := (a : ℤ) - (r : ℤ)
      let y : ℤ := (b : ℤ) - (r : ℤ)
      if x * x + y * y ≤ (r : ℤ) * (r : ℤ) then some (x, y) else none))).flatten

/-- Mask read at integer coordinates; outside the image the value is `true`
(skimage erosion pads borders with the maximal value, so structures touching
the border are not eroded from outside). -/
def maskGetB (m : Mask) (i j : ℤ) : Bool :=
  if 0 ≤ i ∧ i < (m.length : ℤ) ∧ 0 ≤ j ∧ j < (mCols m : ℤ) then
    getM m i.toNat j.toNat
  else true

/-- `skimage.morphology.erosion(mask, disk(r))`: a pixel survives iff every
offset of the disk lands on a true pixel (or outside the image). -/
def erode (m : Mask) (r : ℕ) : Mask :=
  (List.range m.length).map (fun (i : ℕ) =>
    (List.range (mCols m)).map (fun (j : ℕ) =>
      (diskOffsets r).all (fun o => maskGetB m ((i : ℤ) + o.1) ((j : ℤ) + o.2))))

/-- The erosion radius of app.py line 128, `int(0.15*max(mask.shape)//2)`,
with the hard-coded shrink fraction 0.85 generalised to a parameter `f`
(the code computes the instance `f = 85/100`, i.e. `1 - f = 0.15`). -/
def erosionRadius (f : ℚ) (maxShape : ℕ) : ℕ :=
  (Int.floor ((1 - f) * (maxShape : ℚ) / 2)).toNat

/-- The interior-ROI reduction: erode a mask by a disk whose radius is the
fraction-dependent radius computed from `max(mask.shape)`. The code applies
`interiorROI (85/100)`. -/
def interiorROI (f : ℚ) (m : Mask) : Mask :=
  erode m (erosionRadius f (max m.length (mCols m)))

/-- The part of `make_roi_mask` after thresholding: label the binary image,
take the largest component (area, first on ties), return an all-true mask if
there is no component (`np.ones_like`), otherwise erode the largest
component's mask to 85 %. -/
def maskFromBinary (rows cols : ℕ) (binary : Mask) : Mask :=
  match argmaxFirst (components binary) with
  | none => allTrueMask rows cols
  | some comp => interiorROI (85 / 100) (maskFromCells rows cols comp)

/-- `make_roi_mask` (app.py lines 117–129), with the library threshold call
`filters.threshold_otsu` supplied as the oracle `otsu`. Note the slice handed
to it by `compute_b0_ppm` is the raw signed phase difference. -/
def makeRoiMask (otsu : Image → ℚ) (img : Image) : Mask :=
  maskFromBinary img.length (nCols img) (binarize (otsu img) img)

/-! ### The pipeline (`compute_b0_ppm`, app.py lines 131–143) and the
B0 tab evaluator (lines 192–194) -/

/-- The result of `compute_b0_ppm`: the per-slice maxima and the per-slice
`(ppm_slice, mask)` pairs. -/
structure B0Result where
  ppmMaxList : List ℚ
  sliceImgs : List (Image × Mask)
deriving DecidableEq

/-- One iteration of the slice loop of `compute_b0_ppm` (lines 137–142):
subtract the phases, segment the difference, scale by 1e3 (the placeholder
conversion), and take the masked maximum. -/
def processSlice (otsu : Image → ℚ) (p1 p2 : Image) : Option (ℚ × Image × Mask) := do
  let d ← imgSub p2 p1
  let mask := makeRoiMask otsu d
  let ppm := scaleImg 1000 d
  let m ← ppmMax ppm mask
  pure (m, ppm, mask)

/-- The slice loop of `compute_b0_ppm`: iterate over the slice indices of the
first echo (`range(te1_stack.shape[0])`), indexing the second echo's stack at
each index (`te2_stack[idx]` raises past the end, hence the `Option` bind). -/
def computeFromStacks (otsu : Image → ℚ) (s1 s2 : List Image) : Option B0Result := do
  let results ← (List.range s1.length).mapM (fun idx => do
    let p2 ← s2.get? idx
    processSlice otsu (s1.getD idx []) p2)
  pure ⟨results.map Prod.fst, results.map (fun r => (r.2.1, r.2.2))⟩

/-- `compute_b0_ppm` (app.py lines 131–143). -/
def computeB0ppm (otsu : Image → ℚ) (te1Files te2Files : List DFile) :
    Option B0Result := do
  let s1 ← readDicomPhase te1Files
  let s2 ← readDicomPhase te2Files
  computeFromStacks otsu s1 s2

/-- PASS/FAIL classification outcome. -/
inductive Status
  | pass
  | fail
deriving DecidableEq

/-- The classification of the B0 tab (app.py line 194):
PASS iff the value is ≤ the limit (inclusive comparison). -/
def classify (v limit : ℚ) : Status :=
  if v ≤ limit then Status.pass else Status.fail

/-- `ACTION_LIMITS['B0_ppm'] = 0.5`. -/
def b0ActionLimit : ℚ := 1 / 2

/-- The B0 tab evaluator (app.py lines 192–194): run the pipeline and
classify `np.nanmax(max_ppm_list)` against the action limit (the per-slice
maxima are finite rationals here, so `nanmax` is the plain maximum). -/
def b0Status (otsu : Image → ℚ) (te1Files te2Files : List DFile) : Option Status := do
  let r ← computeB0ppm otsu te1Files te2Files
  let m ← npMax r.ppmMaxList
  pure (classify m b0ActionLimit)

/-! ### Spec-side definitions (for refinement comparisons only) -/

/-- The specification's ppm conversion:
`Δf = Δφ / (2π·ΔTE)`, `ppm = Δf / f0`, expressed on the 10⁻⁶ scale. -/
noncomputable def specPpm (dphi dTE f0 : ℝ) : ℝ :=
  dphi / (2 * Real.pi * dTE) / f0 * 1000000

/-- The specification's per-slice metric: the maximum of the absolute
field-map values inside the ROI, no value when the ROI is empty. -/
def sliceMetricSpec (ppm : Image) (m : Mask) : Option ℚ :=
  npMax ((maskedValues ppm m).map (fun v => |v|))

/-- Mask inclusion, pixelwise. -/
def maskSubset (a b : Mask) : Prop :=
  ∀ i j, getM a i j = true → getM b i j = true

/-- Rectangularity of a mask. -/
def isRectMask (m : Mask) : Bool := m.all (fun row => row.length == mCols m)

/-- An all-zero 2×2 reference slice (no phantom signal). -/
def zeroSlice : Image := [[0, 0], [0, 0]]

/-- An uploaded file holding the all-zero slice. -/
def zeroFile : DFile := ⟨[97], zeroSlice⟩

/-- A 1×14 row with a single hot pixel: its one-pixel phantom mask is
eroded away entirely (erosion radius 1 at width 14). -/
def hotRow : List ℚ := [0, 0, 0, 0, 0, 10, 0, 0, 0, 0, 0, 0, 0, 0]

/-- A flat 1×14 row. -/
def flatRow : List ℚ := List.replicate 14 0

section

attribute [local semireducible] Rat.add Rat.sub Rat.mul Rat.inv Rat.ofScientific

/-! ### Helper lemmas -/

theorem npMax_none_iff (l : List ℚ) : npMax l = none ↔ l = [] := by
  cases l <;> simp [npMax]

theorem foldl_max_init_le (xs : List ℚ) (a : ℚ) : a ≤ xs.foldl max a := by
  induction xs generalizing a with
  | nil => exact le_refl a
  | cons x xs ih =>
    rw [List.foldl_cons]
    exact le_trans (le_max_left a x) (ih (max a x))

theorem foldl_max_le_of_mem (xs : List ℚ) (a u : ℚ) (h : u ∈ xs) :
    u ≤ xs.foldl max a := by
  induction xs generalizing a with
  | nil => cases h
  | cons x xs ih =>
    rw [List.foldl_cons]
    rcases List.mem_cons.mp h with rfl | h'
    · exact le_trans (le_max_right a u) (foldl_max_init_le xs (max a u))
    · exact ih (max a x) h'

theorem foldl_max_mem (xs : List ℚ) (a : ℚ) :
    xs.foldl max a = a ∨ xs.foldl max a ∈ xs := by
  induction xs generalizing a with
  | nil => left; rfl
  | cons x xs ih =>
    rw [List.foldl_cons]
    rcases ih (max a x) with h | h
    · rcases max_choice a x with hm | hm
      · left; rw [h, hm]
      · right; rw [h, hm]; exact List.mem_cons_self x xs
    · right; exact List.mem_cons_of_mem x h

theorem npMax_spec (l : List ℚ) (v : ℚ) (h : npMax l = some v) :
    v ∈ l ∧ ∀ u ∈ l, u ≤ v := by
  cases l with
  | nil => simp [npMax] at h
  | cons x xs =>
    simp only [npMax, Option.some.injEq] at h
    subst h
    refine ⟨?_, ?_⟩
    · rcases foldl_max_mem xs x with h | h
      · rw [h]; exact List.mem_cons_self x xs
      · exact List.mem_cons_of_mem x h
    · intro u hu
      rcases List.mem_cons.mp hu with rfl | h'
      · exact foldl_max_init_le xs u
      · exact foldl_max_le_of_mem xs x u h'

theorem mapM_option_congr {α β : Type} (l : List α) (f g : α → Option β)
    (h : ∀ a ∈ l, f a = g a) : l.mapM f = l.mapM g := by
  induction l with
  | nil => rfl
  | cons x xs ih =>
    rw [List.mapM_cons, List.mapM_cons, h x (List.mem_cons_self x xs),
      ih (fun a ha => h a (List.mem_cons_of_mem x ha))]

theorem mapM_option_none {α β : Type} (l : List α) (f : α → Option β) (a : α)
    (ha : a ∈ l) (hf : f a = none) : l.mapM f = none := by
  induction l with
  | nil => cases ha
  | cons x xs ih =>
    rw [List.mapM_cons]
    rcases List.mem_cons.mp ha with rfl | h'
    · rw [hf]; rfl
    · cases hfx : f x with
      | none => rfl
      | some y => rw [ih h']; rfl

theorem processSlice_mask (otsu : Image → ℚ) (p1 p2 d : Image)
    (r : ℚ × Image × Mask) (hd : imgSub p2 p1 = some d)
    (hr : processSlice otsu p1 p2 = some r) :
    r.2.2 = makeRoiMask otsu d ∧ r.2.1 = scaleImg 1000 d := by
  simp only [processSlice, hd, Option.bind_eq_bind, Option.some_bind] at hr
  cases hm : ppmMax (scaleImg 1000 d) (makeRoiMask otsu d) with
  | none => rw [hm] at hr; cases hr
  | some m =>
    rw [hm] at hr
    cases hr
    exact ⟨rfl, rfl⟩

theorem noComponents_allTrue (otsu : Image → ℚ) (img : Image)
    (h : trueCells (binarize (otsu img) img) = []) :
    makeRoiMask otsu img = allTrueMask img.length (nCols img) := by
  unfold makeRoiMask maskFromBinary components componentReps
  rw [h]
  rfl

theorem zip_row_sub (xs ys : List ℚ) (j : ℕ) (h : xs.length = ys.length) :
    (List.zipWith (fun x y => x - y) xs ys).getD j 0 = xs.getD j 0 - ys.getD j 0 := by
  induction xs generalizing ys j with
  | nil =>
    cases ys with
    | nil => simp
    | cons y ys => cases h
  | cons x xs ih =>
    cases ys with
    | nil => cases h
    | cons y ys =>
      cases j with
      | zero => rfl
      | succ j => exact ih ys j (Nat.succ_injective h)

theorem rect_row_len (a : Image) (i : ℕ) (ha : isRect a = true) (hi : i < a.length) :
    (a.getD i []).length = nCols a := by
  have hmem : a.getD i [] ∈ a := by
    rw [List.getD_eq_getElem?_getD, List.getElem?_eq_getElem hi]
    exact List.getElem_mem hi
  exact eq_of_beq (List.all_eq_true.mp ha _ hmem)

theorem getD_out {α : Type} (l : List α) (d : α) (i : ℕ) (h : l.length ≤ i) :
    l.getD i d = d := by
  rw [List.getD_eq_getElem?_getD, List.getElem?_eq_none h]
  rfl

theorem zip_img_sub : ∀ (a b : Image) (i j : ℕ), a.length = b.length →
    (∀ k, (a.getD k []).length = (b.getD k []).length) →
    getPix (List.zipWith (List.zipWith fun x y => x - y) a b) i j =
      getPix a i j - getPix b i j := by
  intro a
  induction a with
  | nil =>
    intro b i j hlen _
    cases b with
    | nil => simp [getPix]
    | cons y ys => cases hlen
  | cons x xs ih =>
    intro b i j hlen hrows
    cases b with
    | nil => cases hlen
    | cons y ys =>
      cases i with
      | zero =>
        show (List.zipWith (fun u v => u - v) x y).getD j 0 = x.getD j 0 - y.getD j 0
        exact zip_row_sub x y j (hrows 0)
      | succ i =>
        exact ih ys i j (Nat.succ_injective hlen) (fun k => hrows (k + 1))

theorem imgSub_pointwise (p2 p1 d : Image) (h2 : isRect p2 = true)
    (h1 : isRect p1 = true) (hd : imgSub p2 p1 = some d) (i j : ℕ) :
    getPix d i j = getPix p2 i j - getPix p1 i j := by
  unfold imgSub at hd
  by_cases hs : sameShape p2 p1 = true
  · rw [if_pos hs] at hd
    cases hd
    have hsp := (Bool.and_eq_true _ _).mp hs
    have hlen : p2.length = p1.length := eq_of_beq hsp.1
    have hcols : nCols p2 = nCols p1 := eq_of_beq hsp.2
    refine zip_img_sub p2 p1 i j hlen (fun k => ?_)
    by_cases hk : k < p2.length
    · rw [rect_row_len p2 k h2 hk, rect_row_len p1 k h1 (hlen ▸ hk), hcols]
    · rw [getD_out _ _ _ (Nat.le_of_not_lt hk),
        getD_out _ _ _ (hlen ▸ Nat.le_of_not_lt hk)]
  · rw [if_neg hs] at hd; cases hd



theorem getD_map_range {α : Type} (n i : ℕ) (f : ℕ → α) (d : α) :
    ((List.range n).map f).getD i d = if i < n then f i else d := by
  rw [List.getD_eq_getElem?_getD, List.getElem?_map]
  by_cases h : i < n
  · rw [List.getElem?_range h, if_pos h]
    rfl
  · rw [List.getElem?_eq_none (by simpa using Nat.le_of_not_lt h), if_neg h]
    rfl

theorem map_range_getD {α : Type} (l : List α) (d : α) :
    (List.range l.length).map (fun i => l.getD i d) = l := by
  induction l with
  | nil => rfl
  | cons x xs ih =>
    rw [List.length_cons, List.range_succ_eq_map, List.map_cons, List.map_map]
    have hcomp : ((fun i => (x :: xs).getD i d) ∘ Nat.succ) = fun i : ℕ => xs.getD i d := by
      funext i
      exact List.getD_cons_succ
    rw [List.getD_cons_zero, hcomp, ih]

theorem mask_rect_row (m : Mask) (i : ℕ) (hm : isRectMask m = true) (hi : i < m.length) :
    (m.getD i []).length = mCols m := by
  have hmem : m.getD i [] ∈ m := by
    rw [List.getD_eq_getElem?_getD, List.getElem?_eq_getElem hi]
    exact List.getElem_mem hi
  exact eq_of_beq (List.all_eq_true.mp hm _ hmem)

theorem mask_reconstruct (m : Mask) (hm : isRectMask m = true) :
    (List.range m.length).map
      (fun i => (List.range (mCols m)).map (fun j => getM m i j)) = m := by
  have hrows : ∀ i ∈ List.range m.length,
      (List.range (mCols m)).map (fun j => getM m i j) = m.getD i [] := by
    intro i hi
    have hlt := List.mem_range.mp hi
    have hlen := mask_rect_row m i hm hlt
    have h1 : (List.range (mCols m)).map (fun j => getM m i j) =
        (List.range (m.getD i []).length).map (fun j => (m.getD i []).getD j false) := by
      rw [hlen]
      rfl
    rw [h1, map_range_getD]
  rw [List.map_congr_left hrows, map_range_getD]

theorem mem_diskOffsets (r : ℕ) (p : ℤ × ℤ) :
    p ∈ diskOffsets r ↔ p.1 * p.1 + p.2 * p.2 ≤ (r : ℤ) * r := by
  obtain ⟨x, y⟩ := p
  unfold diskOffsets
  rw [List.mem_flatten]
  constructor
  · rintro ⟨row, hrow, hmem⟩
    rw [List.mem_map] at hrow
    obtain ⟨a, _, rfl⟩ := hrow
    rw [List.mem_filterMap] at hmem
    obtain ⟨b, _, hsome⟩ := hmem
    by_cases hc : ((a:ℤ) - r) * ((a:ℤ) - r) + ((b:ℤ) - r) * ((b:ℤ) - r) ≤ (r:ℤ) * r
    · rw [if_pos hc] at hsome
      cases hsome
      exact hc
    · rw [if_neg hc] at hsome
      cases hsome
  · intro hle
    have hr0 : (0:ℤ) ≤ r := Int.ofNat_nonneg r
    have hx2 : x * x ≤ (r:ℤ) * r := by nlinarith [mul_self_nonneg y]
    have hy2 : y * y ≤ (r:ℤ) * r := by nlinarith [mul_self_nonneg x]
    have hx1 : -(r:ℤ) ≤ x := by nlinarith
    have hx2' : x ≤ (r:ℤ) := by nlinarith
    have hy1 : -(r:ℤ) ≤ y := by nlinarith
    have hy2' : y ≤ (r:ℤ) := by nlinarith
    have hba : (x + r).toNat < 2 * r + 1 := by omega
    have hbb : (y + r).toNat < 2 * r + 1 := by omega
    refine ⟨_, List.mem_map.mpr ⟨(x + r).toNat, List.mem_range.mpr hba, rfl⟩, ?_⟩
    rw [List.mem_filterMap]
    refine ⟨(y + r).toNat, List.mem_range.mpr hbb, ?_⟩
    have ha : (((x + r).toNat : ℤ)) - r = x := by omega
    have hb : (((y + r).toNat : ℤ)) - r = y := by omega
    simp only [ha, hb]
    rw [if_pos hle]

theorem diskOffsets_subset (r2 r1 : ℕ) (h : r2 ≤ r1) :
    ∀ p ∈ diskOffsets r2, p ∈ diskOffsets r1 := by
  intro p hp
  rw [mem_diskOffsets] at hp ⊢
  have h' : (r2:ℤ) ≤ r1 := Int.ofNat_le.mpr h
  have hr0 : (0:ℤ) ≤ r2 := Int.ofNat_nonneg r2
  nlinarith

theorem getM_erode (m : Mask) (r : ℕ) (i j : ℕ) :
    getM (erode m r) i j =
      if i < m.length ∧ j < mCols m then
        (diskOffsets r).all (fun o => maskGetB m ((i:ℤ) + o.1) ((j:ℤ) + o.2))
      else false := by
  unfold erode getM
  rw [getD_map_range]
  by_cases hi : i < m.length
  · rw [if_pos hi, getD_map_range]
    by_cases hj : j < mCols m
    · rw [if_pos hj, if_pos ⟨hi, hj⟩]
    · rw [if_neg hj, if_neg (by tauto)]
  · rw [if_neg hi, if_neg (by tauto), List.getD_nil]

theorem erode_anti (m : Mask) (r1 r2 : ℕ) (h : r2 ≤ r1) :
    maskSubset (erode m r1) (erode m r2) := by
  intro i j hij
  rw [getM_erode] at hij ⊢
  by_cases hc : i < m.length ∧ j < mCols m
  · rw [if_pos hc] at hij ⊢
    rw [List.all_eq_true] at hij ⊢
    intro o ho
    exact hij o (diskOffsets_subset r2 r1 h o ho)
  · rw [if_neg hc] at hij
    cases hij

theorem erosionRadius_anti (f1 f2 : ℚ) (M : ℕ) (h : f1 ≤ f2) :
    erosionRadius f2 M ≤ erosionRadius f1 M := by
  unfold erosionRadius
  apply Int.toNat_le_toNat
  apply Int.floor_le_floor
  have hM : (0:ℚ) ≤ (M:ℚ) := Nat.cast_nonneg M
  have h1 : (1 - f2) ≤ (1 - f1) := by linarith
  have h2 := mul_le_mul_of_nonneg_right h1 hM
  linarith

theorem interiorROI_mono (f1 f2 : ℚ) (m : Mask) (h : f1 ≤ f2) :
    maskSubset (interiorROI f1 m) (interiorROI f2 m) :=
  erode_anti m _ _ (erosionRadius_anti f1 f2 _ h)

theorem diskOffsets_zero : diskOffsets 0 = [(0, 0)] := by decide

theorem erode_zero (m : Mask) (hm : isRectMask m = true) : erode m 0 = m := by
  unfold erode
  rw [diskOffsets_zero]
  have hrows : ∀ i ∈ List.range m.length,
      (List.range (mCols m)).map (fun (j : ℕ) =>
        List.all [((0:ℤ), (0:ℤ))] (fun o => maskGetB m ((i:ℤ) + o.1) ((j:ℤ) + o.2))) =
      (List.range (mCols m)).map (fun j => getM m i j) := by
    intro i hi
    apply List.map_congr_left
    intro j hj
    have hi' := List.mem_range.mp hi
    have hj' := List.mem_range.mp hj
    show (maskGetB m ((i:ℤ) + 0) ((j:ℤ) + 0) && true) = getM m i j
    rw [add_zero, add_zero, Bool.and_true]
    unfold maskGetB
    rw [if_pos ⟨Int.ofNat_nonneg i, Int.ofNat_lt.mpr hi', Int.ofNat_nonneg j, Int.ofNat_lt.mpr hj'⟩]
    rw [Int.toNat_natCast, Int.toNat_natCast]
  rw [List.map_congr_left hrows, mask_reconstruct m hm]

theorem erosionRadius_one (M : ℕ) : erosionRadius 1 M = 0 := by
  unfold erosionRadius
  norm_num

theorem interiorROI_one (m : Mask) (hm : isRectMask m = true) : interiorROI 1 m = m := by
  unfold interiorROI
  rw [erosionRadius_one, erode_zero m hm]



theorem sortFiles_sorted (l : List DFile) : List.Sorted nameLE (sortFiles l) :=
  List.sorted_insertionSort nameLE l

theorem sortFiles_perm (l : List DFile) : (sortFiles l).Perm l :=
  List.perm_insertionSort nameLE l

theorem sortFiles_eq_of_perm (l l' : List DFile) (hp : l.Perm l')
    (hn : (l.map DFile.name).Nodup) : sortFiles l = sortFiles l' := by
  have hn' : (l'.map DFile.name).Nodup := ((hp.map DFile.name).nodup_iff).mp hn
  have hperm : (sortFiles l).Perm (sortFiles l') :=
    (sortFiles_perm l).trans (hp.trans (sortFiles_perm l').symm)
  have hne : List.Pairwise (fun a b : DFile => a.name ≠ b.name) l :=
    List.pairwise_map.mp hn
  have hne1 : List.Pairwise (fun a b : DFile => a.name ≠ b.name) (sortFiles l) :=
    ((sortFiles_perm l).pairwise_iff (fun h => h.symm)).mpr hne
  have hne2 : List.Pairwise (fun a b : DFile => a.name ≠ b.name) (sortFiles l') :=
    ((sortFiles_perm l').pairwise_iff (fun h => h.symm)).mpr (List.pairwise_map.mp hn')
  have hst1 : List.Sorted nameLT (sortFiles l) :=
    ((sortFiles_sorted l).and hne1).imp (fun h => lt_of_le_of_ne h.1 h.2)
  have hst2 : List.Sorted nameLT (sortFiles l') :=
    ((sortFiles_sorted l').and hne2).imp (fun h => lt_of_le_of_ne h.1 h.2)
  exact List.eq_of_perm_of_sorted hperm hst1 hst2

theorem computeB0ppm_perm (otsu : Image → ℚ) (l1 l1' l2 l2' : List DFile)
    (h1 : l1.Perm l1') (h2 : l2.Perm l2')
    (hn1 : (l1.map DFile.name).Nodup) (hn2 : (l2.map DFile.name).Nodup) :
    computeB0ppm otsu l1 l2 = computeB0ppm otsu l1' l2' := by
  unfold computeB0ppm readDicomPhase
  rw [sortFiles_eq_of_perm l1 l1' h1 hn1, sortFiles_eq_of_perm l2 l2' h2 hn2]

theorem computeFromStacks_extra (otsu : Image → ℚ) (s1 s2 : List Image)
    (_h : s1.length ≤ s2.length) :
    computeFromStacks otsu s1 s2 = computeFromStacks otsu s1 (s2.take s1.length) := by
  unfold computeFromStacks
  have hm : ((List.range s1.length).mapM (fun idx => do
        let p2 ← s2.get? idx
        processSlice otsu (s1.getD idx []) p2)) =
      ((List.range s1.length).mapM (fun idx => do
        let p2 ← (s2.take s1.length).get? idx
        processSlice otsu (s1.getD idx []) p2)) := by
    apply mapM_option_congr
    intro idx hidx
    have hlt : idx < s1.length := List.mem_range.mp hidx
    have hg : (s2.take s1.length).get? idx = s2.get? idx := by
      rw [List.get?_eq_getElem?, List.get?_eq_getElem?, List.getElem?_take, if_pos hlt]
    rw [hg]
  rw [hm]

theorem computeFromStacks_short (otsu : Image → ℚ) (s1 s2 : List Image)
    (h : s2.length < s1.length) : computeFromStacks otsu s1 s2 = none := by
  unfold computeFromStacks
  rw [mapM_option_none (List.range s1.length) _ s2.length (List.mem_range.mpr h) ?_]
  · rfl
  · show (s2.get? s2.length).bind _ = none
    rw [List.get?_eq_getElem?, List.getElem?_eq_none (le_refl _)]
    rfl


/-! ### Claim theorems -/

/-- C1: the spec's ppm conversion is `Δφ / (2π·ΔTE) / f0`; the code instead
multiplies the phase difference by 1e3 (`ppm_slice = phase_diff*1e3`, marked
"placeholder conversion"). On a slice with phase difference 1 rad at the
segmented pixel, ΔTE = 0.01 s and f0 = 63.86 MHz, the pipeline reports
1000 "ppm" while the specified conversion yields a value below 1 (≈0.249 on
the 10⁻⁶ scale), so the code diverges from the documented formula. -/
theorem c1_ppm_conversion_code_bug :
    (computeB0ppm (fun _ => 1/2) [⟨[97], [[0, 0]]⟩] [⟨[97], [[1, 0]]⟩]).map
        B0Result.ppmMaxList = some [1000] ∧
      specPpm 1 (1/100) 63860000 < 1 ∧ specPpm 1 (1/100) 63860000 ≠ 1000 := by
  have hkey : specPpm 1 (1/100) 63860000 = 1000000 / (Real.pi * 1277200) := by
    unfold specPpm
    ring
  have hπ : (3:ℝ) < Real.pi := Real.pi_gt_three
  have hlt : specPpm 1 (1/100) 63860000 < 1 := by
    rw [hkey, div_lt_one (by positivity)]
    nlinarith
  exact ⟨by decide, hlt, ne_of_lt (lt_trans hlt (by norm_num))⟩

/-- C2 counterexample: the code computes the phase difference by plain
subtraction (`te2 - te1`), so for the wrapped input phases ±157/50 (both
strictly inside (−π, π]) the computed difference is 157/25 = 6.28, which lies
outside (−π, π] — refuting the claim that every output lies in (−π, π]. -/
theorem c2_wrap_counterexample :
    imgSub [[(157:ℚ)/50]] [[-(157:ℚ)/50]] = some [[157/25]] ∧
      (157/50 : ℝ) < Real.pi ∧ Real.pi < 157/25 := by
  refine ⟨by decide, ?_, ?_⟩
  · have := Real.pi_gt_d6
    linarith
  · have := Real.pi_lt_d6
    linarith

/-- C2 amended: the per-pixel phase difference is the plain subtraction
`te2 − te1` (no wrap-safe angle-of-ratio); outputs are not confined to
(−π, π], and wrapped inputs ±157/50 across a wrap boundary produce a computed
jump of 157/25, which is within 0.01 of 2π (the wrap-safe difference would be
the small value 2π − 157/25 < 0.01). -/
theorem c2_naive_subtraction :
    (∀ p2 p1 d : Image, isRect p2 = true → isRect p1 = true →
        imgSub p2 p1 = some d →
        ∀ i j, getPix d i j = getPix p2 i j - getPix p1 i j) ∧
      imgSub [[(157:ℚ)/50, -(157:ℚ)/50]] [[0, 0]] = some [[157/50, -157/50]] ∧
      (157/50 : ℚ) - (-157/50) = 157/25 ∧
      2 * Real.pi - 157/25 < 1/100 ∧ (6 : ℝ) < 157/25 := by
  refine ⟨imgSub_pointwise, by decide, by norm_num, ?_, by norm_num⟩
  have := Real.pi_lt_d6
  linarith

/-- C2 witness: the pointwise-subtraction law applied at a concrete pair of
1×1 slices. -/
theorem c2_naive_subtraction_witness :
    getPix [[(3:ℚ)]] 0 0 = getPix [[(5:ℚ)]] 0 0 - getPix [[(2:ℚ)]] 0 0 :=
  c2_naive_subtraction.1 [[(5:ℚ)]] [[(2:ℚ)]] [[(3:ℚ)]]
    (by decide) (by decide) (by decide) 0 0

/-- C3 counterexample: the per-slice metric is the SIGNED maximum, not the
maximum absolute value. On a slice whose phase difference is [[-10, -9]] the
pipeline reports −9000 where max |FieldMap| over the ROI is 9000, and the
evaluator then classifies PASS; moreover a slice whose interior ROI erodes to
empty makes the pipeline raise (`np.max` of an empty selection, modelled as
`none`) instead of excluding the slice. -/
theorem c3_signed_metric_counterexample :
    (computeB0ppm (fun _ => -19/2) [⟨[97], [[0, 9]]⟩] [⟨[97], [[-10, 0]]⟩]).map
        B0Result.ppmMaxList = some [-9000] ∧
      sliceMetricSpec (scaleImg 1000 [[-10, -9]])
        (makeRoiMask (fun _ => -19/2) [[-10, -9]]) = some 9000 ∧
      b0Status (fun _ => -19/2) [⟨[97], [[0, 9]]⟩] [⟨[97], [[-10, 0]]⟩] =
        some Status.pass ∧
      computeB0ppm (fun _ => 5) [⟨[97], [flatRow]⟩] [⟨[97], [hotRow]⟩] = none := by
  refine ⟨by decide, by decide, by decide, by decide⟩

/-- C3 amended: the code's per-slice metric `np.max(ppm_slice[mask])` is the
greatest of the signed masked values (it is attained and bounds every masked
value), and it is undefined (an exception, modelled `none`) exactly when the
masked selection is empty — the empty-ROI slice is not excluded but aborts
the computation. -/
theorem c3_metric_signed_max :
    (∀ ppm m v, ppmMax ppm m = some v →
        v ∈ maskedValues ppm m ∧ ∀ u ∈ maskedValues ppm m, u ≤ v) ∧
      ∀ ppm m, ppmMax ppm m = none ↔ maskedValues ppm m = [] :=
  ⟨fun _ _ _ h => npMax_spec _ _ h, fun _ _ => npMax_none_iff _⟩

/-- C3 witness: the signed-maximum law applied at a concrete slice. -/
theorem c3_metric_signed_max_witness :
    (7:ℚ) ∈ maskedValues [[3, 7]] [[true, true]] ∧
      ∀ u ∈ maskedValues [[(3:ℚ), 7]] [[true, true]], u ≤ 7 :=
  c3_metric_signed_max.1 [[3, 7]] [[true, true]] 7 (by decide)

/-- C4 counterexample: a slice whose binarization has no foreground component
makes `make_roi_mask` return `np.ones_like` — an all-TRUE mask containing
true pixels — not the all-false mask the claim requires. -/
theorem c4_allTrue_counterexample :
    trueCells (binarize 5 [[(0:ℚ), 1]]) = [] ∧
      makeRoiMask (fun _ => 5) [[(0:ℚ), 1]] = [[true, true]] ∧
      getM [[true, true]] 0 0 = true := by
  refine ⟨by decide, by decide, by decide⟩

/-- C4 amended: whenever the binarization at the computed threshold yields no
foreground pixel (hence no connected component), `make_roi_mask` returns the
all-TRUE mask of the slice's shape (`np.ones_like`), so downstream scores the
whole slice as ROI instead of treating it as phantom-not-found. -/
theorem c4_no_component_allTrue :
    ∀ (otsu : Image → ℚ) (img : Image),
      trueCells (binarize (otsu img) img) = [] →
      makeRoiMask otsu img = allTrueMask img.length (nCols img) :=
  noComponents_allTrue

/-- C4 witness: the all-true fallback at a concrete slice and threshold. -/
theorem c4_no_component_allTrue_witness :
    makeRoiMask (fun _ => 5) [[(0:ℚ), 1]] = allTrueMask 1 2 :=
  c4_no_component_allTrue (fun _ => 5) [[(0:ℚ), 1]] (by decide)

/-- C5 counterexample: on all-zero reference slices (no phantom anywhere) the
evaluator returns PASS, not a phantom-not-found failure. -/
theorem c5_zero_pass_counterexample :
    b0Status (fun _ => 0) [zeroFile] [zeroFile] = some Status.pass := by decide

/-- C5 amended: for an all-zero reference slice and ANY threshold the library
could return, segmentation falls back to the full-image mask (empty binary →
`np.ones_like`; all-true binary → the whole grid is one component), the slice
scores 0 ppm, and the evaluator classifies PASS — the all-zero slice is never
handled as phantom-not-found. (The real `skimage` Otsu additionally raises on
a constant image, which this oracle model does not capture.) -/
theorem c5_zero_slice_pass :
    ∀ t : ℚ, b0Status (fun _ => t) [zeroFile] [zeroFile] = some Status.pass := by
  intro t
  have hmask : makeRoiMask (fun _ => t) [[(0:ℚ), 0], [0, 0]] =
      [[true, true], [true, true]] := by
    by_cases h : t < 0
    · have hb : binarize t [[(0:ℚ), 0], [0, 0]] = [[true, true], [true, true]] := by
        simp [binarize, h]
      unfold makeRoiMask
      simp only [hb]
      decide
    · have hb : binarize t [[(0:ℚ), 0], [0, 0]] = [[false, false], [false, false]] := by
        simp [binarize, h]
      unfold makeRoiMask
      simp only [hb]
      decide
  have h1 : readDicomPhase [zeroFile] = some [zeroSlice] := by decide
  have h2 : imgSub zeroSlice zeroSlice = some [[(0:ℚ), 0], [0, 0]] := by decide
  have h3 : ppmMax (scaleImg 1000 [[(0:ℚ), 0], [0, 0]]) [[true, true], [true, true]] =
      some 0 := by decide
  have h0 : List.range 1 = [0] := by decide
  unfold b0Status computeB0ppm computeFromStacks processSlice
  rw [h1]
  simp only [Option.bind_eq_bind, Option.some_bind, List.length_cons, List.length_nil,
    h0, List.mapM_cons, List.mapM_nil, List.get?_cons_zero, List.getD_cons_zero,
    h2, hmask, h3]
  decide

/-- C5 witness: the amended law at a concrete threshold. -/
theorem c5_zero_slice_pass_witness :
    b0Status (fun _ => 7) [zeroFile] [zeroFile] = some Status.pass :=
  c5_zero_slice_pass 7

/-- C6: classification is PASS iff the value is ≤ the action limit, with
equality passing: the B0 limit is 0.5, value 0.5 classifies PASS and value
0.5000001 classifies FAIL. -/
theorem c6_inclusive_threshold :
    (∀ v L : ℚ, classify v L = Status.pass ↔ v ≤ L) ∧
      b0ActionLimit = 1/2 ∧
      classify (1/2) b0ActionLimit = Status.pass ∧
      classify (5000001/10000000) b0ActionLimit = Status.fail := by
  refine ⟨fun v L => ?_, by norm_num [b0ActionLimit], by decide, by decide⟩
  unfold classify
  split
  · simp_all
  · simp_all

/-- C6 witness: the inclusive comparison applied at a concrete value. -/
theorem c6_inclusive_threshold_witness : classify (1/4) (1/2) = Status.pass :=
  (c6_inclusive_threshold.1 (1/4) (1/2)).mpr (by norm_num)

/-- C7 counterexample: at shrink fraction f = 0 the all-true 3×3 mask is
returned WHOLE (skimage erosion pads borders with the maximal value, so a
mask touching the image border is not eroded from outside) — refuting the
claim that f → 0 yields the empty mask or a single point, never the whole
mask. -/
theorem c7_f0_whole_mask :
    interiorROI 0 [[true, true, true], [true, true, true], [true, true, true]] =
        [[true, true, true], [true, true, true], [true, true, true]] ∧
      (trueCells [[true, true, true], [true, true, true], [true, true, true]]).length
        = 9 := by
  refine ⟨by decide, by decide⟩

/-- C7 amended: the interior-ROI reduction is monotone in the shrink fraction
(f1 ≤ f2 implies InteriorROI(f1) ⊆ InteriorROI(f2)) and f = 1 returns the
full input mask; but because erosion treats out-of-border pixels as
foreground, a mask touching the image border can be returned whole even as
f → 0. -/
theorem c7_roi_monotone :
    (∀ (f1 f2 : ℚ) (m : Mask), f1 ≤ f2 →
        maskSubset (interiorROI f1 m) (interiorROI f2 m)) ∧
      ∀ m : Mask, isRectMask m = true → interiorROI 1 m = m :=
  ⟨fun f1 f2 m h => interiorROI_mono f1 f2 m h, fun m hm => interiorROI_one m hm⟩

/-- C7 witness: monotonicity and the f = 1 identity at a concrete mask. -/
theorem c7_roi_monotone_witness :
    maskSubset (interiorROI (1/2) [[true, true], [true, false]])
        (interiorROI (9/10) [[true, true], [true, false]]) ∧
      interiorROI 1 [[true, true], [true, false]] = [[true, true], [true, false]] :=
  ⟨c7_roi_monotone.1 (1/2) (9/10) [[true, true], [true, false]] (by norm_num),
    c7_roi_monotone.2 [[true, true], [true, false]] (by decide)⟩

/-- C8 counterexample: with one TE1 slice and two TE2 slices the pipeline
succeeds and returns exactly the result computed from the first TE2 slice
alone — the extra TE2 slice is silently ignored, and no structural-input
error is surfaced. -/
theorem c8_silent_ignore :
    computeB0ppm (fun _ => 1) [⟨[97], [[0, 2]]⟩] [⟨[97], [[3, 0]]⟩, ⟨[98], [[9, 9]]⟩] =
        computeB0ppm (fun _ => 1) [⟨[97], [[0, 2]]⟩] [⟨[97], [[3, 0]]⟩] ∧
      (computeB0ppm (fun _ => 1)
        [⟨[97], [[0, 2]]⟩] [⟨[97], [[3, 0]]⟩, ⟨[98], [[9, 9]]⟩]).isSome = true := by
  refine ⟨by decide, by decide⟩

/-- C8 amended: the slice loop runs over the first echo's slice count, so
surplus second-echo slices are silently ignored (the result equals the result
on the truncated second echo), while a second echo with FEWER slices makes
the loop index past the end and the pipeline aborts with an unstructured
index error (modelled `none`). -/
theorem c8_slice_count_mismatch :
    (∀ (otsu : Image → ℚ) (s1 s2 : List Image), s1.length ≤ s2.length →
        computeFromStacks otsu s1 s2 = computeFromStacks otsu s1 (s2.take s1.length)) ∧
      ∀ (otsu : Image → ℚ) (s1 s2 : List Image), s2.length < s1.length →
        computeFromStacks otsu s1 s2 = none :=
  ⟨computeFromStacks_extra, computeFromStacks_short⟩

/-- C8 witness: both mismatch behaviours at concrete stacks. -/
theorem c8_slice_count_mismatch_witness :
    computeFromStacks (fun _ => 0) [[[1]]] [[[2]], [[3]]] =
        computeFromStacks (fun _ => 0) [[[1]]] ([[[2]], [[3]]].take 1) ∧
      computeFromStacks (fun _ => 0) [[[1]], [[1]]] [[[2]]] = none :=
  ⟨c8_slice_count_mismatch.1 (fun _ => 0) [[[1]]] [[[2]], [[3]]] (by decide),
    c8_slice_count_mismatch.2 (fun _ => 0) [[[1]], [[1]]] [[[2]]] (by decide)⟩

/-- C9 counterexample: the threshold-and-label step operates on the raw
SIGNED phase difference. For the phase difference [[-1, 1], [1, 1]] (negative
pixel present) the pipeline's stored ROI mask equals the segmentation of the
signed image and differs from the segmentation of its magnitude. -/
theorem c9_signed_segmentation :
    (computeB0ppm (fun _ => 0) [⟨[97], [[1, 0], [0, 0]]⟩]
          [⟨[97], [[0, 1], [1, 1]]⟩]).map (fun r => r.sliceImgs.map Prod.snd) =
        some [[[false, true], [true, true]]] ∧
      makeRoiMask (fun _ => 0) [[-1, 1], [1, 1]] = [[false, true], [true, true]] ∧
      makeRoiMask (fun _ => 0) (imgAbs [[-1, 1], [1, 1]]) = [[true, true], [true, true]] ∧
      getPix [[(-1:ℚ), 1], [1, 1]] 0 0 < 0 := by
  refine ⟨by decide, by decide, by decide, by decide⟩

/-- C9 amended: inside the slice loop, the mask stored and used for scoring
is exactly `make_roi_mask` applied to the signed phase-difference image (and
the stored ppm slice is that same image scaled by 1e3) — no magnitude
conversion happens before segmentation. -/
theorem c9_threshold_on_signed_diff :
    ∀ (otsu : Image → ℚ) (p1 p2 d : Image) (r : ℚ × Image × Mask),
      imgSub p2 p1 = some d → processSlice otsu p1 p2 = some r →
      r.2.2 = makeRoiMask otsu d ∧ r.2.1 = scaleImg 1000 d :=
  fun otsu p1 p2 d r hd hr => processSlice_mask otsu p1 p2 d r hd hr

/-- C9 witness: the law applied at a concrete slice pair. -/
theorem c9_threshold_on_signed_diff_witness :
    ((1000:ℚ), ([[(1000:ℚ)]] : Image), ([[true]] : Mask)).2.2 =
        makeRoiMask (fun _ => 0) [[1]] ∧
      ((1000:ℚ), ([[(1000:ℚ)]] : Image), ([[true]] : Mask)).2.1 =
        scaleImg 1000 [[1]] :=
  c9_threshold_on_signed_diff (fun _ => 0) [[0]] [[1]] [[1]]
    (1000, [[(1000:ℚ)]], [[true]]) (by decide) (by decide)

/-- C10 counterexample: two TE2 files share the same name with different
pixel data; Python's stable sort keeps their upload order, so swapping them
permutes the stacked slices and changes the per-slice metric list — the
output is NOT invariant under permutation of the input file list. -/
theorem c10_duplicate_names :
    (computeB0ppm (fun _ => 0) [⟨[112], [[0]]⟩, ⟨[113], [[0]]⟩]
          [⟨[120], [[1]]⟩, ⟨[120], [[2]]⟩]).map B0Result.ppmMaxList =
        some [1000, 2000] ∧
      (computeB0ppm (fun _ => 0) [⟨[112], [[0]]⟩, ⟨[113], [[0]]⟩]
          [⟨[120], [[2]]⟩, ⟨[120], [[1]]⟩]).map B0Result.ppmMaxList =
        some [2000, 1000] ∧
      List.Perm [(⟨[120], [[2]]⟩ : DFile), ⟨[120], [[1]]⟩]
        [⟨[120], [[1]]⟩, ⟨[120], [[2]]⟩] := by
  refine ⟨by decide, by decide, by decide⟩

/-- C10 amended: the loader sorts each file list ascending by the name
attribute (lexicographically over code points), and the pipeline output is
invariant under permutations of either input list PROVIDED the names within
each list are pairwise distinct; with duplicate names the stable sort
preserves upload order of the ties, so a permutation can change the output. -/
theorem c10_sorted_and_perm_invariant :
    (∀ files : List DFile,
        List.Sorted nameLE (sortFiles files) ∧ (sortFiles files).Perm files) ∧
      ∀ (otsu : Image → ℚ) (l1 l1' l2 l2' : List DFile),
        l1.Perm l1' → l2.Perm l2' →
        (l1.map DFile.name).Nodup → (l2.map DFile.name).Nodup →
        computeB0ppm otsu l1 l2 = computeB0ppm otsu l1' l2' :=
  ⟨fun files => ⟨sortFiles_sorted files, sortFiles_perm files⟩, computeB0ppm_perm⟩

/-- C10 witness: permutation invariance applied to concrete distinctly-named
lists. -/
theorem c10_sorted_and_perm_invariant_witness :
    computeB0ppm (fun _ => 0) [⟨[97], [[1]]⟩, ⟨[98], [[2]]⟩] [⟨[99], [[3]]⟩] =
        computeB0ppm (fun _ => 0) [⟨[98], [[2]]⟩, ⟨[97], [[1]]⟩] [⟨[99], [[3]]⟩] :=
  c10_sorted_and_perm_invariant.2 (fun _ => 0)
    [⟨[97], [[1]]⟩, ⟨[98], [[2]]⟩] [⟨[98], [[2]]⟩, ⟨[97], [[1]]⟩]
    [⟨[99], [[3]]⟩] [⟨[99], [[3]]⟩]
    (by decide) (by decide) (by decide) (by decide)


end

end MriQc

